import Mathlib

/-!
Verification of the mesh-generation and shape-deformation kernel in
`openaerostruct/geometry/utils.py`.

Modelling conventions.

* A nodal mesh of shape `(nx, ny, 3)` is embedded as a total function
  `MeshF : ℕ → ℕ → Pt`, together with the two extents `nx ny : ℕ` passed
  explicitly; index `i` is the chordwise station (row `0` the leading edge,
  row `nx - 1` the trailing edge) and `j` the spanwise station, exactly as in
  the numpy arrays of the source. Statements about a mesh of shape
  `(nx, ny, 3)` quantify their conclusions over indices below those bounds.
  For the one claim that is about array allocation (shape preservation) a
  second, list-based view `MeshL` is derived from the same functional
  operators.
* Coordinates are rational numbers. The source operates on IEEE floats
  (or complex steps), but every claim under study is an exact algebraic
  statement about the arithmetic the code performs, so the embedding uses
  exact field arithmetic.
* `cos`, `sin`, `tan`, `arctan` and `pi` come from the external numerics
  library (`from numpy import cos, sin, tan`, line 3 of the source); they are
  not code of this repository. They are modelled as an explicit environment
  `NumEnv` of unconstrained rational functions; theorems that depend on true
  facts of trigonometry (`cos 0 = 1`, `cos (pi/2) = 0`, ...) take those facts
  as hypotheses on the environment.
* Division by zero yields `0` in `ℚ` where numpy would produce `inf`/`nan`;
  every claim settled below either avoids that regime or is insensitive to
  the junk value (noted at the relevant definition).
-/

/-- A single mesh node: one `(x, y, z)` coordinate triple (components `0`,
`1`, `2` of the innermost numpy axis). -/
@[ext]
structure Pt where
  x : ℚ
  y : ℚ
  z : ℚ
  deriving DecidableEq, Repr

/-- Functional view of a numpy mesh array: the node at chordwise station `i`
and spanwise station `j`. Extents are carried separately. -/
def MeshF : Type := ℕ → ℕ → Pt

/-- The numeric routines the source imports from the external library
(numpy): `pi` and the trigonometric functions, over the embedding field. -/
structure NumEnv where
  pi : ℚ
  cos : ℚ → ℚ
  sin : ℚ → ℚ
  tan : ℚ → ℚ
  arctan : ℚ → ℚ

/-- `np.linspace(a, b, n)` at index `i`: `n` evenly spaced samples from `a`
to `b` inclusive. numpy returns `[a]` for `n = 1` and `[]` for `n = 0`;
indices at and beyond `n` are out of range and carry no meaning here. -/
def linspace (a b : ℚ) (n : ℕ) (i : ℕ) : ℚ :=
  if n ≤ 1 then a else a + (b - a) * i / ((n : ℚ) - 1)

/-- `np.interp(x, xp, fp)` with the breakpoints and values zipped into one
list: clamped piecewise-linear interpolation. Outside `[xp.head, xp.last]`
the nearest `fp` value is returned; inside, the two surrounding breakpoints
interpolate linearly. For degenerate (non-increasing) breakpoints numpy
yields `nan` unless the two `fp` values agree, in which case it returns that
common value; here `0`-division returns the left `fp` value, which agrees
with numpy exactly in the equal-`fp` case (the only case any claim below
exercises). -/
def interpSeg (x : ℚ) : List (ℚ × ℚ) → ℚ
  | [] => 0
  | [p] => p.2
  | p :: q :: rest =>
    if x < p.1 then p.2
    else if x ≤ q.1 then p.2 + (q.2 - p.2) / (q.1 - p.1) * (x - p.1)
    else interpSeg x (q :: rest)

/-- The quarter-chord point of spanwise station `j`:
`0.25 * te + 0.75 * le` with `le = mesh[0]`, `te = mesh[-1]`
(source lines 30-32, recomputed per call, never cached). -/
def quarterChord (nx : ℕ) (mesh : MeshF) (j : ℕ) : Pt :=
  ⟨1/4 * (mesh (nx - 1) j).x + 3/4 * (mesh 0 j).x,
   1/4 * (mesh (nx - 1) j).y + 3/4 * (mesh 0 j).y,
   1/4 * (mesh (nx - 1) j).z + 3/4 * (mesh 0 j).z⟩

/-- `taper(mesh, taper_ratio, symmetry)` (source lines 262-316): builds a
per-station envelope by `np.interp` of spanwise quarter-chord position
against a one-segment (symmetric) or two-segment tent (full-span) breakpoint
table, then rescales every coordinate component about the station's
quarter-chord point by the envelope value. -/
def taperF (nx ny : ℕ) (mesh : MeshF) (taper_ratio : ℚ) (symmetry : Bool) :
    MeshF :=
  let qc := fun j => quarterChord nx mesh j
  let xq := fun j => (qc j).y
  let span := xq (ny - 1) - xq 0
  let tap : ℕ → ℚ := fun j =>
    if symmetry then interpSeg (xq j) [(-span, taper_ratio), (0, 1)]
    else interpSeg (xq j)
      [(-span / 2, taper_ratio), (0, 1), (span / 2, taper_ratio)]
  fun i j =>
    ⟨((mesh i j).x - (qc j).x) * tap j + (qc j).x,
     ((mesh i j).y - (qc j).y) * tap j + (qc j).y,
     ((mesh i j).z - (qc j).z) * tap j + (qc j).z⟩

/-- `scale_x(mesh, chord_dist)` (source lines 77-101): for every spanwise
station, scale the x-offset of each chordwise node from that station's
quarter-chord point by the station's chord factor. The quarter-chord values
are computed once, up front, from the incoming mesh (the source copies them
out of the array before the loop). -/
def scale_xF (nx : ℕ) (mesh : MeshF) (chord_dist : ℕ → ℚ) : MeshF :=
  let qc := fun j => quarterChord nx mesh j
  fun i j =>
    ⟨((mesh i j).x - (qc j).x) * chord_dist j + (qc j).x,
     (mesh i j).y, (mesh i j).z⟩

/-- `shear_x(mesh, xshear)` (source lines 103-119): add a per-station offset
to every chordwise node's x coordinate (`mesh[:, :, 0] += xshear`). -/
def shear_xF (mesh : MeshF) (xshear : ℕ → ℚ) : MeshF :=
  fun i j => ⟨(mesh i j).x + xshear j, (mesh i j).y, (mesh i j).z⟩

/-- `shear_z(mesh, zshear)` (source lines 121-137): add a per-station offset
to every chordwise node's z coordinate (`mesh[:, :, 2] += zshear`). -/
def shear_zF (mesh : MeshF) (zshear : ℕ → ℚ) : MeshF :=
  fun i j => ⟨(mesh i j).x, (mesh i j).y, (mesh i j).z + zshear j⟩

/-- `sweep(mesh, sweep_angle, symmetry)` (source lines 139-181): shift every
node's x coordinate by `tan(pi/180 * angle)` times the leading-edge spanwise
distance from the root; the symmetric branch takes the root at the last
spanwise index, the full-span branch at index `(ny - 1) // 2` with mirrored
signs on the two halves. -/
def sweepF (env : NumEnv) (ny : ℕ) (mesh : MeshF) (sweep_angle : ℚ)
    (symmetry : Bool) : MeshF :=
  let tanTheta := env.tan (env.pi / 180 * sweep_angle)
  let le := fun j => mesh 0 j
  let dx : ℕ → ℚ :=
    if symmetry then
      fun j => -((le j).y - (le (ny - 1)).y) * tanTheta
    else
      let ny2 := (ny - 1) / 2
      fun j =>
        if j < ny2 then -((le j).y - (le ny2).y) * tanTheta
        else ((le j).y - (le ny2).y) * tanTheta
  fun i j => ⟨(mesh i j).x + dx j, (mesh i j).y, (mesh i j).z⟩

/-- `dihedral(mesh, dihedral_angle, symmetry)` (source lines 183-223):
structurally identical to `sweep` but the offset is added to z. -/
def dihedralF (env : NumEnv) (ny : ℕ) (mesh : MeshF) (dihedral_angle : ℚ)
    (symmetry : Bool) : MeshF :=
  let tanTheta := env.tan (env.pi / 180 * dihedral_angle)
  let le := fun j => mesh 0 j
  let dz : ℕ → ℚ :=
    if symmetry then
      fun j => -((le j).y - (le (ny - 1)).y) * tanTheta
    else
      let ny2 := (ny - 1) / 2
      fun j =>
        if j < ny2 then -((le j).y - (le ny2).y) * tanTheta
        else ((le j).y - (le ny2).y) * tanTheta
  fun i j => ⟨(mesh i j).x, (mesh i j).y, (mesh i j).z + dz j⟩

/-- `stretch(mesh, span, symmetry)` (source lines 226-260): halve the target
span when symmetric, then set every node's y coordinate to
`quarter_chord_y / prev_span * span`, where `prev_span` is the current
spanwise extent of the quarter-chord line. -/
def stretchF (nx ny : ℕ) (mesh : MeshF) (span : ℚ) (symmetry : Bool) :
    MeshF :=
  let qc := fun j => quarterChord nx mesh j
  let span2 := if symmetry then span / 2 else span
  let prevSpan := (qc (ny - 1)).y - (qc 0).y
  fun i j => ⟨(mesh i j).x, (qc j).y / prevSpan * span2, (mesh i j).z⟩

/-- The half-span sample count `(n + 1) // 2` used by both generators
(`ny2` at source line 351, `nx2` at lines 365 and 524). At line 365 the
source uses Python true division, which yields the same integer when
`num_x` is odd (the only regime in which that branch builds a mesh; see
`chordData`). -/
def halfCount (n : ℕ) : ℕ := (n + 1) / 2

/-- Length of `np.hstack((-half[:-1], half[::-1])))` for a half-distribution
of `n2` samples: `2 * n2 - 1`, or `0` when the half is empty. -/
def mirrorLen (n2 : ℕ) : ℕ := if n2 = 0 then 0 else 2 * n2 - 1

/-- One half-wing sample (source lines 352-358 and 527-534): the blend
`cosine * blend + (1 - blend) * uniform` of the cosine distribution
`0.5 * cos(beta)` (with `beta` linear from `0` to `pi/2`) and the reversed
uniform distribution `linspace(0, 0.5, n2)[::-1]`, at index `k`. -/
def halfWing (env : NumEnv) (blend : ℚ) (n2 k : ℕ) : ℚ :=
  1/2 * env.cos (linspace 0 (env.pi / 2) n2 k) * blend +
    (1 - blend) * linspace 0 (1/2) n2 (n2 - 1 - k)

/-- The mirrored full distribution
`np.hstack((-half_wing[:-1], half_wing[::-1]))` at index `k` (source lines
359, 373, 541): the first `n2 - 1` entries are the negated half-wing
samples, the rest the half-wing read backwards. Indices at and beyond
`mirrorLen n2` are out of range and carry no meaning. -/
def fullMirror (env : NumEnv) (blend : ℚ) (n2 k : ℕ) : ℚ :=
  if k < n2 - 1 then -(halfWing env blend n2 k)
  else halfWing env blend n2 (2 * n2 - 2 - k)

/-- The chordwise samples of `gen_rect_mesh` (source lines 361-373), with
their count: a plain `np.linspace(0, chord, num_x)` when the blend is zero,
otherwise the mirrored blend distribution scaled by `chord` — note, with no
`+ 0.5` recentering, unlike `add_chordwise_panels` line 541. In the blended
branch the half-count `(num_x + 1) / 2` is Python true division: for odd
`num_x` it is exact and the mirrored distribution has `num_x` entries; for
even `num_x` it is fractional and the `np.linspace` call is malformed (a
non-integer sample count — an error on current numpy), modelled as
failure. -/
def chordData (env : NumEnv) (num_x : ℕ) (chord ccs : ℚ) :
    Option ((ℕ → ℚ) × ℕ) :=
  if ccs = 0 then some (fun i => linspace 0 chord num_x i, num_x)
  else if num_x % 2 = 1 then
    some (fun i => fullMirror env ccs (halfCount num_x) i * chord,
      mirrorLen (halfCount num_x))
  else none

/-- `gen_rect_mesh(num_x, num_y, span, chord, span_cos_spacing,
chord_cos_spacing)` (source lines 318-379): spanwise samples are the
mirrored blend distribution scaled by `span`; chordwise samples come from
`chordData`. The final double loop writes node `(i, j)` as
`[full_wing_x[i], full_wing[j], 0]`; if either index range exceeds the
sample count the fill raises `IndexError` (modelled as `none`) — the
spanwise count is `2 * ((num_y + 1) // 2) - 1`, which equals `num_y` only
for odd `num_y`. -/
def gen_rect_mesh (env : NumEnv) (num_x num_y : ℕ)
    (span chord span_cos_spacing chord_cos_spacing : ℚ) : Option MeshF :=
  (chordData env num_x chord chord_cos_spacing).bind fun fx =>
    if num_y ≤ mirrorLen (halfCount num_y) ∧ num_x ≤ fx.2 then
      some fun i j =>
        ⟨fx.1 i, fullMirror env span_cos_spacing (halfCount num_y) j * span, 0⟩
    else none

/-- The chordwise weight distribution of `add_chordwise_panels` (source
lines 522-541): `np.linspace(0, 1, num_x)` when the blend is zero, otherwise
the mirrored blend distribution recentred by `+ 0.5` so it runs from `0`
to `1`. -/
def refineDist (env : NumEnv) (num_x : ℕ) (ccs : ℚ) (i : ℕ) : ℚ :=
  if ccs = 0 then linspace 0 1 num_x i
  else fullMirror env ccs (halfCount num_x) i + 1/2

/-- `add_chordwise_panels(mesh, num_x, chord_cos_spacing)` (source lines
496-556): allocate a zero mesh of `num_x` rows, copy the leading-edge row
into row `0` and the trailing-edge row into row `num_x - 1` (in that
order, so for `num_x = 1` the trailing row wins), then fill rows `1` to
`num_x - 2` with the blend `(1 - w) * le + w * te`. The spanwise half-count
`ny2` computed at source line 523 is never used. -/
def addChordwisePanelsF (env : NumEnv) (nx : ℕ) (mesh : MeshF)
    (num_x : ℕ) (ccs : ℚ) : MeshF :=
  let le := fun j => mesh 0 j
  let te := fun j => mesh (nx - 1) j
  fun i j =>
    if 1 ≤ i ∧ i ≤ num_x - 2 then
      let w := refineDist env num_x ccs i
      ⟨(1 - w) * (le j).x + w * (te j).x,
       (1 - w) * (le j).y + w * (te j).y,
       (1 - w) * (le j).z + w * (te j).z⟩
    else if i = num_x - 1 then te j
    else if i = 0 then le j
    else ⟨0, 0, 0⟩

/-- `rotate(mesh, theta_y, symmetry, rotate_x)` (source lines 8-75): per
station, a local roll angle is taken from the slope of the quarter-chord
line (`arctan(dz/dy)` between adjacent stations, `0` at the root — appended
last for the symmetric convention, in the middle at `(ny - 1) // 2` for the
full-span convention; when `rotate_x` is false the roll angle is the scalar
`0`), the twist is converted to radians, and each node is rotated about its
station's quarter-chord point by the `3 x 3` matrix of source lines 63-71
(a zero-initialised matrix, so entry `(0, 1)` is `0`). For adjacent stations
with equal spanwise coordinate the slope divides by zero — unhandled in the
source (numpy would produce non-finite values; here junk `0`-division
values), and exercised by no claim. -/
def rotateF (env : NumEnv) (nx ny : ℕ) (mesh : MeshF) (theta_y : ℕ → ℚ)
    (symmetry rot_x : Bool) : MeshF :=
  let qc := fun j => quarterChord nx mesh j
  let radThetaX : ℕ → ℚ :=
    if rot_x then
      if symmetry then
        fun j =>
          if j + 1 < ny then
            env.arctan
              (((qc j).z - (qc (j + 1)).z) / ((qc j).y - (qc (j + 1)).y))
          else 0
      else
        let root := (ny - 1) / 2
        fun j =>
          if j < root then
            env.arctan
              (((qc j).z - (qc (j + 1)).z) / ((qc j).y - (qc (j + 1)).y))
          else if j = root then 0
          else
            env.arctan
              (((qc j).z - (qc (j - 1)).z) / ((qc j).y - (qc (j - 1)).y))
    else fun _ => 0
  let radThetaY := fun j => theta_y j * env.pi / 180
  fun i j =>
    let tx := radThetaX j
    let ty := radThetaY j
    let vx := (mesh i j).x - (qc j).x
    let vy := (mesh i j).y - (qc j).y
    let vz := (mesh i j).z - (qc j).z
    ⟨env.cos ty * vx + env.sin ty * vz + (qc j).x,
     env.sin tx * env.sin ty * vx + env.cos tx * vy -
       env.sin tx * env.cos ty * vz + (qc j).y,
     -(env.cos tx) * env.sin ty * vx + env.sin tx * vy +
       env.cos tx * env.cos ty * vz + (qc j).z⟩

/-- Exception-aware run of `scale_x` with the chord factors as an array of
explicit length (source lines 93-101): the loop touches stations
`0, 1, ...` in order and reads `chord_dist[i]` at each; if the factor array
is shorter than `ny` that read raises `IndexError` at `i = length`
(first component `true`), leaving the earlier stations already scaled — the
numpy column assignment of source line 100 completes per station. A factor
array of length `ny` or longer never raises; entries beyond `ny` are
silently ignored because the loop runs over `range(ny)`. -/
def scale_x_run (nx ny : ℕ) (mesh : MeshF) (chord_dist : List ℚ) :
    Bool × MeshF :=
  let qc := fun j => quarterChord nx mesh j
  let k := min ny chord_dist.length
  (decide (chord_dist.length < ny),
   fun i j =>
     if j < k then
       ⟨((mesh i j).x - (qc j).x) * chord_dist.getD j 0 + (qc j).x,
        (mesh i j).y, (mesh i j).z⟩
     else mesh i j)

/-- Exception-aware run of `shear_x` with the offsets as an array of
explicit length (source line 119): `mesh[:, :, 0] += xshear` is one
vectorised numpy operation, so it either broadcasts — parameter length
equal to `ny`, or length `1` which silently applies one offset everywhere —
or raises a shape error before any element is written (first component
`true`, mesh unchanged). -/
def shear_x_run (ny : ℕ) (mesh : MeshF) (xshear : List ℚ) : Bool × MeshF :=
  if xshear.length = ny ∨ xshear.length = 1 then
    (false,
     fun i j =>
       ⟨(mesh i j).x +
          (if xshear.length = 1 then xshear.getD 0 0 else xshear.getD j 0),
        (mesh i j).y, (mesh i j).z⟩)
  else (true, mesh)

/-- List view of a numpy mesh array: rows (chordwise stations) of station
points. The array shape `(nx, ny, 3)` is the outer length together with the
row lengths. -/
abbrev MeshL : Type := List (List Pt)

/-- `mesh.shape[1]` of a list mesh: the length of its first row. -/
def meshNy (m : MeshL) : ℕ := (m.headD []).length

/-- Functional reading of a list mesh (out-of-range indices default). -/
def toF (m : MeshL) : MeshF := fun i j => (m.getD i []).getD j ⟨0, 0, 0⟩

/-- Materialise a functional mesh as a list mesh of the given extents. -/
def ofF (nx ny : ℕ) (f : MeshF) : MeshL :=
  (List.range nx).map fun i => (List.range ny).map fun j => f i j

/-- The shape of a list mesh: outer length and all row lengths (each node
is always a coordinate triple, so the trailing `3` is carried by `Pt`). -/
def shapeL (m : MeshL) : ℕ × List ℕ := (m.length, m.map List.length)

/-- Array-level `rotate`: the in-place update writes every node of the
existing `(nx, ny)` grid through the functional operator. -/
def rotateL (env : NumEnv) (m : MeshL) (theta_y : ℕ → ℚ)
    (symmetry rot_x : Bool) : MeshL :=
  ofF m.length (meshNy m)
    (rotateF env m.length (meshNy m) (toF m) theta_y symmetry rot_x)

/-- Array-level `scale_x`. -/
def scale_xL (m : MeshL) (chord_dist : ℕ → ℚ) : MeshL :=
  ofF m.length (meshNy m) (scale_xF m.length (toF m) chord_dist)

/-- Array-level `shear_x`. -/
def shear_xL (m : MeshL) (xshear : ℕ → ℚ) : MeshL :=
  ofF m.length (meshNy m) (shear_xF (toF m) xshear)

/-- Array-level `shear_z`. -/
def shear_zL (m : MeshL) (zshear : ℕ → ℚ) : MeshL :=
  ofF m.length (meshNy m) (shear_zF (toF m) zshear)

/-- Array-level `sweep`. -/
def sweepL (env : NumEnv) (m : MeshL) (sweep_angle : ℚ)
    (symmetry : Bool) : MeshL :=
  ofF m.length (meshNy m) (sweepF env (meshNy m) (toF m) sweep_angle symmetry)

/-- Array-level `dihedral`. -/
def dihedralL (env : NumEnv) (m : MeshL) (dihedral_angle : ℚ)
    (symmetry : Bool) : MeshL :=
  ofF m.length (meshNy m)
    (dihedralF env (meshNy m) (toF m) dihedral_angle symmetry)

/-- Array-level `stretch`. -/
def stretchL (m : MeshL) (span : ℚ) (symmetry : Bool) : MeshL :=
  ofF m.length (meshNy m) (stretchF m.length (meshNy m) (toF m) span symmetry)

/-- Array-level `taper`. -/
def taperL (m : MeshL) (taper_ratio : ℚ) (symmetry : Bool) : MeshL :=
  ofF m.length (meshNy m) (taperF m.length (meshNy m) (toF m) taper_ratio symmetry)

/-- A concrete `2 x 2` list mesh. -/
def meshL2 : MeshL := [[⟨0, 0, 0⟩, ⟨0, 1, 0⟩], [⟨1, 0, 0⟩, ⟨1, 1, 0⟩]]

/-- A concrete environment for instantiating environment-polymorphic
theorems: `pi = 180` and identity-like trigonometric tables. Nothing below
depends on these values being trigonometrically accurate. -/
def envLin : NumEnv :=
  ⟨180, fun q => 1 - q, fun q => q, fun q => q, fun q => q⟩

/-- A concrete mesh whose node at `(i, j)` is `(i, j, 0)`. -/
def meshLin : MeshF := fun i j => ⟨(i : ℚ), (j : ℚ), 0⟩

/-- A concrete environment with `pi = 2` whose cosine table is the step
function `cos 0 = 1`, `cos q = 0` otherwise — enough to satisfy
`cos 0 = 1` and `cos (pi / 2) = 0`. -/
def envStep : NumEnv :=
  ⟨2, fun q => if q = 0 then 1 else 0, fun q => q, fun q => q, fun q => q⟩

/-- A concrete environment with `pi = 4` whose cosine table satisfies
`cos 0 = 1`, `cos (pi / 2) = cos 2 = 0` and `cos (pi / 4) = cos 1 = 3/4`,
the three facts of real cosine used by the chordwise-refinement claim. -/
def envTrig : NumEnv :=
  ⟨4, fun q => if q = 0 then 1 else if q = 2 then 0 else 3/4,
   fun q => q, fun q => q, fun q => q⟩

theorem interpSeg_const (x c : ℚ) :
    ∀ l : List (ℚ × ℚ), l ≠ [] → (∀ p ∈ l, p.2 = c) → interpSeg x l = c := by
  intro l
  induction l with
  | nil => intro h; exact absurd rfl h
  | cons p tail ih =>
    intro _ hval
    cases tail with
    | nil => simpa [interpSeg] using hval p (by simp)
    | cons q rest =>
      have hp : p.2 = c := hval p (by simp)
      have hq : q.2 = c := hval q (by simp)
      rw [interpSeg]
      split_ifs with h1 h2
      · exact hp
      · rw [hp, hq]; simp
      · exact ih (by simp) (fun r hr => hval r (List.mem_cons_of_mem p hr))

/-- Claim C1: for every mesh of shape `(nx, ny, 3)` and both symmetry modes,
`taper(mesh, 1.0, symmetry)` leaves every coordinate unchanged: the
per-station taper envelope interpolates a table whose values are all `1`. -/
theorem taper_unity_identity (nx ny : ℕ) (mesh : MeshF) (symmetry : Bool)
    (i j : ℕ) : taperF nx ny mesh 1 symmetry i j = mesh i j := by
  have hface : ∀ xv a b : ℚ, interpSeg xv [(a, 1), (b, 1)] = 1 := by
    intro xv a b
    refine interpSeg_const xv 1 _ (by simp) ?_
    intro p hp
    simp only [List.mem_cons, List.not_mem_nil, or_false] at hp
    rcases hp with rfl | rfl <;> rfl
  have htent : ∀ xv a b c : ℚ, interpSeg xv [(a, 1), (b, 1), (c, 1)] = 1 := by
    intro xv a b c
    refine interpSeg_const xv 1 _ (by simp) ?_
    intro p hp
    simp only [List.mem_cons, List.not_mem_nil, or_false] at hp
    rcases hp with rfl | rfl | rfl <;> rfl
  cases symmetry <;>
    · simp only [taperF, htent, hface, if_true, if_false, Bool.false_eq_true,
        mul_one]
      ext <;> ring

/-- Claim C4: `scale_x` leaves every station's quarter-chord point — as
recomputed from the scaled mesh — unchanged, scales each node's x-offset
from that point by the station's factor, and touches no y or z
coordinate. -/
theorem scale_x_preserves_quarter_chord (nx : ℕ) (mesh : MeshF)
    (chord_dist : ℕ → ℚ) (i j : ℕ) :
    quarterChord nx (scale_xF nx mesh chord_dist) j = quarterChord nx mesh j ∧
    (scale_xF nx mesh chord_dist i j).x -
        (quarterChord nx (scale_xF nx mesh chord_dist) j).x =
      ((mesh i j).x - (quarterChord nx mesh j).x) * chord_dist j ∧
    (scale_xF nx mesh chord_dist i j).y = (mesh i j).y ∧
    (scale_xF nx mesh chord_dist i j).z = (mesh i j).z := by
  have hqc : quarterChord nx (scale_xF nx mesh chord_dist) j =
      quarterChord nx mesh j := by
    ext
    all_goals simp [scale_xF, quarterChord]
    all_goals ring
  refine ⟨hqc, ?_, rfl, rfl⟩
  rw [hqc]
  simp [scale_xF, quarterChord]

/-- Claim C3: for a mesh whose quarter-chord line has nonzero spanwise
extent, `stretch(mesh, target, symmetry=True)` leaves the recomputed
quarter-chord spanwise extent exactly `target / 2`, whatever the extent was
before. -/
theorem stretch_sym_sets_halfspan (nx ny : ℕ) (mesh : MeshF) (target : ℚ)
    (h : (quarterChord nx mesh (ny - 1)).y - (quarterChord nx mesh 0).y ≠ 0) :
    (quarterChord nx (stretchF nx ny mesh target true) (ny - 1)).y -
      (quarterChord nx (stretchF nx ny mesh target true) 0).y = target / 2 := by
  have hy : ∀ j, (quarterChord nx (stretchF nx ny mesh target true) j).y =
      (quarterChord nx mesh j).y /
        ((quarterChord nx mesh (ny - 1)).y - (quarterChord nx mesh 0).y) *
        (target / 2) := by
    intro j
    simp [stretchF, quarterChord]
    ring
  rw [hy, hy, div_mul_eq_mul_div, div_mul_eq_mul_div, div_sub_div_same,
    ← sub_mul, div_eq_iff h]
  ring

/-- Claim C3 witness: a two-station symmetric mesh of unit span stretched to
a target full span of `6` ends with quarter-chord half-extent `3`. -/
theorem stretch_sym_sets_halfspan_inst :
    (quarterChord 1 (stretchF 1 2 meshLin 6 true) 1).y -
      (quarterChord 1 (stretchF 1 2 meshLin 6 true) 0).y = 3 := by
  have h := stretch_sym_sets_halfspan 1 2 meshLin 6
    (by norm_num [quarterChord, meshLin])
  norm_num at h
  exact h

/-- Claim C5: for a symmetric mesh (root at the last spanwise index) `sweep`
adds an x-offset and `dihedral` a z-offset that is exactly zero at the root
station, and the offset magnitudes grow strictly with the station's
leading-edge spanwise distance from the root whenever the tangent of the
converted angle is nonzero (the source computes the offsets as that distance
times `tan(pi/180 * angle)`; for the real tangent, any nonzero angle in the
operating range `(-90, 90)` degrees has nonzero tangent). -/
theorem sweep_dihedral_root_zero_monotone (env : NumEnv) (ny : ℕ)
    (mesh : MeshF) (sweep_angle dihedral_angle : ℚ)
    (hs : env.tan (env.pi / 180 * sweep_angle) ≠ 0)
    (hd : env.tan (env.pi / 180 * dihedral_angle) ≠ 0) :
    (∀ i : ℕ,
      (sweepF env ny mesh sweep_angle true i (ny - 1)).x = (mesh i (ny - 1)).x ∧
      (dihedralF env ny mesh dihedral_angle true i (ny - 1)).z =
        (mesh i (ny - 1)).z) ∧
    (∀ i j k : ℕ,
      |(mesh 0 j).y - (mesh 0 (ny - 1)).y| <
          |(mesh 0 k).y - (mesh 0 (ny - 1)).y| →
        |(sweepF env ny mesh sweep_angle true i j).x - (mesh i j).x| <
          |(sweepF env ny mesh sweep_angle true i k).x - (mesh i k).x| ∧
        |(dihedralF env ny mesh dihedral_angle true i j).z - (mesh i j).z| <
          |(dihedralF env ny mesh dihedral_angle true i k).z -
            (mesh i k).z|) := by
  have hdx : ∀ i j, (sweepF env ny mesh sweep_angle true i j).x - (mesh i j).x =
      -((mesh 0 j).y - (mesh 0 (ny - 1)).y) *
        env.tan (env.pi / 180 * sweep_angle) := by
    intro i j
    simp [sweepF]
  have hdz : ∀ i j,
      (dihedralF env ny mesh dihedral_angle true i j).z - (mesh i j).z =
      -((mesh 0 j).y - (mesh 0 (ny - 1)).y) *
        env.tan (env.pi / 180 * dihedral_angle) := by
    intro i j
    simp [dihedralF]
  constructor
  · intro i
    constructor
    · have := hdx i (ny - 1)
      simp only [sub_self, neg_zero, zero_mul] at this
      linarith [this]
    · have := hdz i (ny - 1)
      simp only [sub_self, neg_zero, zero_mul] at this
      linarith [this]
  · intro i j k hjk
    constructor
    · rw [hdx, hdx, abs_mul, abs_mul, abs_neg, abs_neg]
      exact mul_lt_mul_of_pos_right hjk (abs_pos.2 hs)
    · rw [hdz, hdz, abs_mul, abs_mul, abs_neg, abs_neg]
      exact mul_lt_mul_of_pos_right hjk (abs_pos.2 hd)

/-- Claim C5 witness: on a two-station symmetric mesh with unit spanwise
spacing and nonzero sweep and dihedral tangents, the root station keeps its
coordinates and the tip's offset magnitude strictly dominates the root's. -/
theorem sweep_dihedral_root_zero_monotone_inst :
    (sweepF envLin 2 meshLin 7 true 0 1).x = (meshLin 0 1).x ∧
    (dihedralF envLin 2 meshLin 9 true 0 1).z = (meshLin 0 1).z ∧
    |(sweepF envLin 2 meshLin 7 true 0 1).x - (meshLin 0 1).x| <
      |(sweepF envLin 2 meshLin 7 true 0 0).x - (meshLin 0 0).x| := by
  have h := sweep_dihedral_root_zero_monotone envLin 2 meshLin 7 9
    (by norm_num [envLin]) (by norm_num [envLin])
  exact ⟨(h.1 0).1, (h.1 0).2, (h.2 0 1 0 (by norm_num [meshLin])).1⟩

/-- Claim C2: `gen_rect_mesh(2, 3, 10, 2, 0, 0)` returns a mesh whose node
`(i, j)` is `(2i, 5j - 5, 0)`: spanwise coordinates `[-5, 0, 5]` in both
chordwise rows, leading-edge row at `x = 0`, trailing-edge row at `x = 2`,
`z = 0` everywhere — for every numeric environment, since zero spacing
blends cancel every cosine term. -/
theorem gen_rect_mesh_basic (env : NumEnv) (i j : ℕ) (hi : i < 2) (hj : j < 3) :
    (gen_rect_mesh env 2 3 10 2 0 0).map (fun m => m i j) =
      some ⟨2 * (i : ℚ), 5 * (j : ℚ) - 5, 0⟩ := by
  interval_cases i <;> interval_cases j <;>
    (simp [gen_rect_mesh, chordData, fullMirror, halfWing, linspace, halfCount,
      mirrorLen]) <;> norm_num

/-- Claim C2 witness: the node at chordwise row `1`, spanwise station `2` of
the concrete call is `(2, 5, 0)`. -/
theorem gen_rect_mesh_basic_inst :
    (gen_rect_mesh envLin 2 3 10 2 0 0).map (fun m => m 1 2) =
      some ⟨2, 5, 0⟩ := by
  have h := gen_rect_mesh_basic envLin 1 2 (by norm_num) (by norm_num)
  norm_num at h
  obtain ⟨a, ha, hval⟩ := h
  rw [ha, Option.map_some', hval]

/-- Claim C10: the spanwise distribution has `2 * ((num_y + 1) // 2) - 1`
entries, which equals `num_y` exactly when `num_y` is odd; so for every odd
`num_y ≥ 1` the fill succeeds (with uniform chordwise spacing), while for
every even `num_y ≥ 1` the per-point fill indexes past the end of the
distribution and the call fails instead of returning a mesh, whatever the
other parameters. -/
theorem gen_rect_mesh_parity (env : NumEnv) (num_x num_y : ℕ)
    (span chord scs ccs : ℚ) (h1 : 1 ≤ num_y) :
    (num_y % 2 = 1 →
      (gen_rect_mesh env num_x num_y span chord scs 0).isSome = true) ∧
    (num_y % 2 = 0 →
      gen_rect_mesh env num_x num_y span chord scs ccs = none) := by
  constructor
  · intro hodd
    have hlen : num_y ≤ mirrorLen (halfCount num_y) := by
      simp only [mirrorLen, halfCount]
      rw [if_neg (by omega)]
      omega
    unfold gen_rect_mesh chordData
    rw [if_pos rfl]
    simp only [Option.some_bind]
    rw [if_pos ⟨hlen, le_rfl⟩]
    rfl
  · intro heven
    have hlen : ¬ num_y ≤ mirrorLen (halfCount num_y) := by
      simp only [mirrorLen, halfCount]
      rw [if_neg (by omega)]
      omega
    unfold gen_rect_mesh chordData
    by_cases hc : ccs = 0
    · rw [if_pos hc]
      simp only [Option.some_bind]
      rw [if_neg (fun h => hlen h.1)]
    · rw [if_neg hc]
      by_cases hx : num_x % 2 = 1
      · rw [if_pos hx]
        simp only [Option.some_bind]
        rw [if_neg (fun h => hlen h.1)]
      · rw [if_neg hx]
        rfl

/-- Claim C10 witness: `num_y = 3` (odd) builds a mesh; `num_y = 4` (even)
fails. -/
theorem gen_rect_mesh_parity_inst :
    (gen_rect_mesh envLin 2 3 1 1 0 0).isSome = true ∧
    gen_rect_mesh envLin 2 4 1 1 0 0 = none :=
  ⟨(gen_rect_mesh_parity envLin 2 3 1 1 0 0 (by norm_num)).1 rfl,
   (gen_rect_mesh_parity envLin 2 4 1 1 0 0 (by norm_num)).2 rfl⟩

/-- Claim C8 (code bug): at `gen_rect_mesh(3, 3, 10, 2, 0, 1)` — nonzero
chordwise blend — the leading-edge row sits at `x = -chord/2 = -1` at every
spanwise station, not at `x = 0` as the specification requires: the blended
chordwise branch (source line 373) omits the `+ 0.5` recentering that its
sibling `add_chordwise_panels` applies at line 541, so the distribution runs
from `-chord/2` to `chord/2` instead of `0` to `chord`. Only
`env.cos 0 = 1`, a fact of the real cosine, is assumed. -/
theorem gen_rect_mesh_le_not_zero (env : NumEnv) (hc0 : env.cos 0 = 1)
    (j : ℕ) (_hj : j < 3) :
    (gen_rect_mesh env 3 3 10 2 0 1).map (fun m => (m 0 j).x) = some (-1) := by
  simp [gen_rect_mesh, chordData, fullMirror, halfWing, halfCount, mirrorLen,
    linspace, hc0]

/-- Claim C8 witness: the concrete step-cosine environment exhibits the
`-1` leading-edge x at station `0`. -/
theorem gen_rect_mesh_le_not_zero_inst :
    (gen_rect_mesh envStep 3 3 10 2 0 1).map (fun m => (m 0 0).x) =
      some (-1) :=
  gen_rect_mesh_le_not_zero envStep (by norm_num [envStep]) 0 (by norm_num)

/-- Claim C6: refining a two-row mesh with chordwise-increasing stations to
`num_x = 5` copies the leading and trailing rows into rows `0` and `4`
exactly, and the three intermediate rows' x-coordinates are strictly
increasing between the leading and trailing x at every spanwise station.
Holds for every blend value in `[0, 1]` under the true-cosine facts
`cos(pi/2) = 0` and `1/2 < cos(pi/4) < 1`. -/
theorem add_chordwise_refine_five (env : NumEnv) (ny : ℕ) (mesh : MeshF)
    (c : ℚ) (hcmin : 0 ≤ c) (hcmax : c ≤ 1)
    (hhalf : env.cos (env.pi / 2) = 0)
    (hqlo : 1/2 < env.cos (env.pi / 4)) (hqhi : env.cos (env.pi / 4) < 1)
    (hx : ∀ j, j < ny → (mesh 0 j).x < (mesh 1 j).x) :
    (∀ j : ℕ, addChordwisePanelsF env 2 mesh 5 c 0 j = mesh 0 j ∧
      addChordwisePanelsF env 2 mesh 5 c 4 j = mesh 1 j) ∧
    (∀ j : ℕ, j < ny →
      (addChordwisePanelsF env 2 mesh 5 c 0 j).x <
        (addChordwisePanelsF env 2 mesh 5 c 1 j).x ∧
      (addChordwisePanelsF env 2 mesh 5 c 1 j).x <
        (addChordwisePanelsF env 2 mesh 5 c 2 j).x ∧
      (addChordwisePanelsF env 2 mesh 5 c 2 j).x <
        (addChordwisePanelsF env 2 mesh 5 c 3 j).x ∧
      (addChordwisePanelsF env 2 mesh 5 c 3 j).x <
        (addChordwisePanelsF env 2 mesh 5 c 4 j).x) := by
  have l1 : linspace 0 (env.pi / 2) 3 1 = env.pi / 4 := by
    norm_num [linspace]
    ring
  have l2 : linspace 0 (env.pi / 2) 3 2 = env.pi / 2 := by
    norm_num [linspace]
  have hw : 0 < refineDist env 5 c 1 ∧
      refineDist env 5 c 1 < refineDist env 5 c 2 ∧
      refineDist env 5 c 2 < refineDist env 5 c 3 ∧
      refineDist env 5 c 3 < 1 := by
    rcases eq_or_lt_of_le hcmin with hc | hcpos
    · rw [← hc]
      norm_num [refineDist, linspace]
    · have hne : c ≠ 0 := (ne_of_lt hcpos).symm
      have e1 : refineDist env 5 c 1 =
          1/2 - (1/2 * env.cos (env.pi / 4) * c + (1 - c) * (1/4)) := by
        simp only [refineDist, if_neg hne, fullMirror, halfCount]
        norm_num [halfWing, l1, linspace]
        ring_nf
      have e2 : refineDist env 5 c 2 = 1/2 := by
        simp only [refineDist, if_neg hne, fullMirror, halfCount]
        norm_num [halfWing, l2, hhalf, linspace]
      have e3 : refineDist env 5 c 3 =
          1/2 + (1/2 * env.cos (env.pi / 4) * c + (1 - c) * (1/4)) := by
        simp only [refineDist, if_neg hne, fullMirror, halfCount]
        norm_num [halfWing, l1, linspace]
        ring_nf
      rw [e1, e2, e3]
      refine ⟨by nlinarith, by nlinarith, by nlinarith, by nlinarith⟩
  have hcopy : ∀ j : ℕ, addChordwisePanelsF env 2 mesh 5 c 0 j = mesh 0 j ∧
      addChordwisePanelsF env 2 mesh 5 c 4 j = mesh 1 j := by
    intro j
    constructor <;> norm_num [addChordwisePanelsF]
  refine ⟨hcopy, ?_⟩
  intro j hj
  have hxj := hx j hj
  have hb1 := (hcopy j).1
  have hb4 := (hcopy j).2
  obtain ⟨hw0, hw1, hw2, hw3⟩ := hw
  have hval : ∀ i, 1 ≤ i → i ≤ 3 →
      (addChordwisePanelsF env 2 mesh 5 c i j).x =
        (1 - refineDist env 5 c i) * (mesh 0 j).x +
          refineDist env 5 c i * (mesh 1 j).x := by
    intro i hi1 hi3
    simp only [addChordwisePanelsF]
    rw [if_pos ⟨hi1, by omega⟩]
  rw [hb1, hb4, hval 1 (by norm_num) (by norm_num),
    hval 2 (by norm_num) (by norm_num), hval 3 (by norm_num) (by norm_num)]
  refine ⟨by nlinarith, by nlinarith, by nlinarith, by nlinarith⟩

/-- Claim C6 witness: the concrete cosine-table environment at blend `1/2`
on the unit two-row mesh: row `0` is copied and the first two interior rows
are strictly ordered. -/
theorem add_chordwise_refine_five_inst :
    addChordwisePanelsF envTrig 2 meshLin 5 (1/2) 0 0 = meshLin 0 0 ∧
    (addChordwisePanelsF envTrig 2 meshLin 5 (1/2) 1 0).x <
      (addChordwisePanelsF envTrig 2 meshLin 5 (1/2) 2 0).x := by
  have h := add_chordwise_refine_five envTrig 1 meshLin (1/2)
    (by norm_num) (by norm_num)
    (by norm_num [envTrig]) (by norm_num [envTrig]) (by norm_num [envTrig])
    (by intro j hj; interval_cases j; norm_num [meshLin])
  exact ⟨(h.1 0).1, (h.2 0 (by norm_num)).2.1⟩

/-- Claim C7 counterexample: `scale_x` on a `(2, 2, 3)` mesh with a factor
array of length `3 ≠ ny = 2` does not fail at all — it silently produces a
result, and a modified one. -/
theorem scale_x_silent_on_long_param :
    ((3 : ℚ) :: 3 :: 3 :: []).length ≠ 2 ∧
    (scale_x_run 2 2 meshLin [3, 3, 3]).1 = false ∧
    (scale_x_run 2 2 meshLin [3, 3, 3]).2 0 0 ≠ meshLin 0 0 := by
  refine ⟨by norm_num, rfl, ?_⟩
  norm_num [scale_x_run, quarterChord, meshLin, Pt.mk.injEq]

/-- Claim C7 amended: shape mismatches are not uniformly rejected at the
call boundary. `scale_x` raises precisely when the factor array is shorter
than `ny`, and only after the stations before the array's end have already
been scaled (stations at and beyond `min ny length` are untouched); a
longer array silently applies its first `ny` entries. `shear_x`, whose
update is a single vectorised assignment, does raise before modifying
anything when the offset length is neither `ny` nor `1` (length `1`
broadcasts silently). -/
theorem scale_x_shear_x_mismatch_behavior (nx ny : ℕ) (mesh : MeshF)
    (chord_dist xshear : List ℚ) :
    ((scale_x_run nx ny mesh chord_dist).1 = true ↔ chord_dist.length < ny) ∧
    (∀ i j, j < min ny chord_dist.length →
      (scale_x_run nx ny mesh chord_dist).2 i j =
        ⟨((mesh i j).x - (quarterChord nx mesh j).x) * chord_dist.getD j 0 +
            (quarterChord nx mesh j).x,
         (mesh i j).y, (mesh i j).z⟩) ∧
    (∀ i j, min ny chord_dist.length ≤ j →
      (scale_x_run nx ny mesh chord_dist).2 i j = mesh i j) ∧
    (xshear.length ≠ ny → xshear.length ≠ 1 →
      shear_x_run ny mesh xshear = (true, mesh)) := by
  refine ⟨by simp [scale_x_run], ?_, ?_, ?_⟩
  · intro i j hj
    simp only [scale_x_run]
    rw [if_pos hj]
  · intro i j hj
    simp only [scale_x_run]
    rw [if_neg (by omega)]
  · intro h1 h2
    simp [shear_x_run, h1, h2]

/-- Claim C7 amended witness: a length-1 factor array on a `ny = 2` mesh
raises (part-way), and a length-3 offset array on `ny = 2` makes `shear_x`
raise with the mesh untouched. -/
theorem scale_x_shear_x_mismatch_behavior_inst :
    (scale_x_run 2 2 meshLin [(5 : ℚ)]).1 = true ∧
    shear_x_run 2 meshLin [(5 : ℚ), 5, 5] = (true, meshLin) := by
  have h := scale_x_shear_x_mismatch_behavior 2 2 meshLin [(5 : ℚ)]
    [(5 : ℚ), 5, 5]
  exact ⟨h.1.mpr (by norm_num), h.2.2.2 (by norm_num) (by norm_num)⟩

theorem map_length_of_rect (ny : ℕ) :
    ∀ m : MeshL, (∀ r ∈ m, r.length = ny) →
      m.map List.length = List.replicate m.length ny := by
  intro m
  induction m with
  | nil => intro _; rfl
  | cons r t ih =>
    intro h
    simp [h r (by simp), ih (fun s hs => h s (by simp [hs])),
      List.replicate_succ]

theorem shapeL_ofF (nx ny : ℕ) (f : MeshF) :
    shapeL (ofF nx ny f) = (nx, List.replicate nx ny) := by
  simp [shapeL, ofF, List.map_map, Function.comp_def]

theorem shapeL_ofF_eq (m : MeshL) (hrect : ∀ r ∈ m, r.length = meshNy m)
    (f : MeshF) : shapeL (ofF m.length (meshNy m) f) = shapeL m := by
  rw [shapeL_ofF]
  unfold shapeL
  rw [map_length_of_rect (meshNy m) m hrect]

/-- Claim C9: every Transform Pipeline operator — `rotate`, `scale_x`,
`shear_x`, `shear_z`, `sweep`, `dihedral`, `stretch`, `taper` — leaves the
`(nx, ny, 3)` shape of a rectangular mesh unchanged, for every parameter
value: each writes coordinates into the existing grid and never adds,
removes or reallocates points. -/
theorem transform_ops_preserve_shape (env : NumEnv) (m : MeshL)
    (hrect : ∀ r ∈ m, r.length = meshNy m)
    (theta_y chord_dist xshear zshear : ℕ → ℚ)
    (sweep_angle dihedral_angle span taper_ratio : ℚ)
    (s1 s2 s3 s4 s5 rx : Bool) :
    shapeL (rotateL env m theta_y s1 rx) = shapeL m ∧
    shapeL (scale_xL m chord_dist) = shapeL m ∧
    shapeL (shear_xL m xshear) = shapeL m ∧
    shapeL (shear_zL m zshear) = shapeL m ∧
    shapeL (sweepL env m sweep_angle s2) = shapeL m ∧
    shapeL (dihedralL env m dihedral_angle s3) = shapeL m ∧
    shapeL (stretchL m span s4) = shapeL m ∧
    shapeL (taperL m taper_ratio s5) = shapeL m :=
  ⟨shapeL_ofF_eq m hrect _, shapeL_ofF_eq m hrect _, shapeL_ofF_eq m hrect _,
   shapeL_ofF_eq m hrect _, shapeL_ofF_eq m hrect _, shapeL_ofF_eq m hrect _,
   shapeL_ofF_eq m hrect _, shapeL_ofF_eq m hrect _⟩

/-- Claim C9 witness: `taper` and `rotate` on the concrete `2 x 2` mesh
keep its shape. -/
theorem transform_ops_preserve_shape_inst :
    shapeL (taperL meshL2 (1/2) true) = shapeL meshL2 ∧
    shapeL (rotateL envLin meshL2 (fun _ => 5) true true) = shapeL meshL2 := by
  have h := transform_ops_preserve_shape envLin meshL2 (by decide)
    (fun _ => 5) (fun _ => 1) (fun _ => 0) (fun _ => 0) 5 5 9 (1/2)
    true true true true true true
  exact ⟨h.2.2.2.2.2.2.2, h.1⟩
